import Mathlib

/-!
Verification of the Nova Scribe document synchronization and versioning core.

The definitions below are a shallow embedding of the persistence layer
(`src/services/firebase.ts`) and of the Visual Studio gallery logic
(`src/components/VisualStudio.tsx`).  The remote Firestore database is
modelled as explicit state: a collection is an association list from
document id to document payload, and a project is a record of its metadata
document together with its five subcollections.  Asynchronous operations
whose failures the source either catches or propagates are modelled with
`Except`, with failures injected through explicit oracle parameters.
-/

namespace NovaScribe

/-! ## Data model (types.ts) -/

/-- `Character` from types.ts. -/
structure Character where
  id : String
  name : String
  age : String
  role : String
  psychology : String
  backstory : String
  relationships : String
  appearance : Option String := none
  skills : Option String := none
  imageUrl : Option String := none
deriving DecidableEq, Repr

/-- `Location` from types.ts. -/
structure Location where
  id : String
  name : String
  description : String
  imageUrl : Option String := none
deriving DecidableEq, Repr

/-- `PlotPoint` from types.ts. -/
structure PlotPoint where
  id : String
  title : String
  description : String
  imageUrl : Option String := none
deriving DecidableEq, Repr

/-- `Manuscript` from types.ts. -/
structure Manuscript where
  id : String
  title : String
  content : String
deriving DecidableEq, Repr

/-- `GeneratedImage` from types.ts. -/
structure GeneratedImage where
  id : String
  src : String
  assignedToId : Option String := none
deriving DecidableEq, Repr

/-- `MemoryCoreData` from types.ts. -/
structure MemoryCoreData where
  characters : List Character
  locations : List Location
  plotPoints : List PlotPoint
deriving DecidableEq, Repr

/-- `Project` from types.ts. -/
structure Project where
  id : String
  title : String
  synopsis : String
  styleSeed : String
  writingStyle : Option String := none
  memoryCore : MemoryCoreData
  manuscripts : List Manuscript
  activeManuscriptId : String
  gallery : List GeneratedImage
  lastModified : Option String := none
deriving DecidableEq, Repr

/-- `ManuscriptVersion` from types.ts (`note?` always materialises on read,
so it is kept as a plain `String` here; the append path always stores one). -/
structure ManuscriptVersion where
  id : String
  content : String
  timestamp : String
  note : String
deriving DecidableEq, Repr

/-! ## JavaScript primitives -/

/-- JS `a || b` on an optional string: `undefined` and `""` are falsy. -/
def jsOr (o : Option String) (d : String) : String :=
  match o with
  | some s => if s = "" then d else s
  | none => d

/-- JS `String.prototype.endsWith` for a plain (non-pattern) suffix. -/
def jsEndsWith (s suffix : String) : Bool :=
  decide (suffix.data <:+ s.data)

/-- Character-level splitting, the semantics of JS `split` on a one-character
separator: `"a-b-c" ↦ ["a","b","c"]`, `"" ↦ [""]`, `"a-" ↦ ["a",""]`. -/
def splitOnChar (sep : Char) : List Char → List String
  | [] => [""]
  | c :: cs =>
    let rest := splitOnChar sep cs
    if c = sep then "" :: rest
    else
      match rest with
      | [] => [String.mk [c]]
      | r :: rs => String.mk (c :: r.data) :: rs

/-- JS `String.prototype.split` with a one-character separator. -/
def jsSplit (s : String) (sep : Char) : List String :=
  splitOnChar sep s.data

/-! ## Subcollection Synchronizer (firebase.ts, `syncSubcollectionSafe`)

A remote subcollection is an association list from document id to payload.
Firestore document ids are unique within a collection; several lemmas make
that `Nodup` invariant explicit where they need it. -/

/-- `getDoc` of a single document of a collection: first entry with the id. -/
def lookupDoc {α : Type} (s : List (String × α)) (k : String) : Option α :=
  match s with
  | [] => none
  | d :: ds => if d.1 = k then some d.2 else lookupDoc ds k

/-- `setDoc(docRef, item, { merge: true })`: the payload carries every field
of the entity, so the write replaces the document at that id, creating it if
absent. -/
def setDocMerge {α : Type} : List (String × α) → String → α → List (String × α)
  | [], k, v => [(k, v)]
  | d :: ds, k, v => if d.1 = k then (k, v) :: ds else d :: setDocMerge ds k v

/-- Step 2 of `syncSubcollectionSafe`: delete every remote document whose id
is not in the local id set. -/
def applyDeletes {α : Type} (remote : List (String × α)) (localIds : List String) :
    List (String × α) :=
  remote.filter (fun d => localIds.contains d.1)

/-- Step 3 of `syncSubcollectionSafe`, one item: the merge-upsert keyed by the
item's id, with its own `.catch` — a failing upsert (oracle `fails`) is logged
and leaves the collection untouched. -/
def applyUpsert {α : Type} (fails : α → Bool) (getId : α → String)
    (s : List (String × α)) (item : α) : List (String × α) :=
  if fails item then s else setDocMerge s (getId item) item

/-- `syncSubcollectionSafe(db, parentPath, name, items)`: fetch the remote id
set, delete ids absent locally, then merge-upsert every local item, each
upsert isolated from the others' failures.  The final remote collection does
not depend on the interleaving of the concurrently awaited operations, so the
deletes are applied first and the upserts are folded in dispatch order. -/
def syncSubcollectionSafe {α : Type} (fails : α → Bool) (getId : α → String)
    (remote : List (String × α)) (items : List α) : List (String × α) :=
  items.foldl (applyUpsert fails getId) (applyDeletes remote (items.map getId))

/-- `syncSubcollectionSafe` with the failure surface made explicit: per-item
upsert failures are caught (oracle `fails`), while a `deleteDoc` rejection
(oracle `deleteFails`) is pushed into `Promise.all` uncaught and rejects the
whole call. -/
def syncSubcollectionSafeE {α : Type} (fails : α → Bool) (deleteFails : String → Bool)
    (getId : α → String) (remote : List (String × α)) (items : List α) :
    Except String (List (String × α)) :=
  let localIds := items.map getId
  if (remote.filter (fun d => !localIds.contains d.1 && deleteFails d.1)).isEmpty then
    .ok (syncSubcollectionSafe fails getId remote items)
  else
    .error "delete failed"

/-- The last item of `items` that targets document id `k` and whose upsert
succeeds; this is the write that determines the final document at `k`. -/
def lastWrite {α : Type} (fails : α → Bool) (getId : α → String)
    (items : List α) (k : String) : Option α :=
  items.foldl (fun acc i => if fails i = false ∧ getId i = k then some i else acc) none

/-! ## Project Store (firebase.ts, `saveProjectFull` / `loadProjectFull`) -/

/-- The lightweight metadata document written by `saveProjectFull`. -/
structure ProjectMeta where
  id : String
  title : String
  synopsis : String
  styleSeed : String
  writingStyle : String
  activeManuscriptId : String
  ownerId : String
  lastModified : String
deriving DecidableEq, Repr

/-- The remote documents stored under one `projects/{projectId}` path: the
metadata document (absent until first saved) and the five subcollections. -/
structure RemoteProject where
  meta : Option ProjectMeta := none
  characters : List (String × Character) := []
  locations : List (String × Location) := []
  plotPoints : List (String × PlotPoint) := []
  manuscripts : List (String × Manuscript) := []
  gallery : List (String × GeneratedImage) := []
deriving DecidableEq, Repr

/-- The whole remote store, keyed by project id. -/
def FStore : Type := String → RemoteProject

/-- A remote project path with nothing stored under it. -/
def RemoteProject.empty : RemoteProject := {}

/-- Per-entity-kind upsert failure oracles threaded through a full save
(an upsert fails in practice when the payload exceeds the document size
limit, which depends on the entity's contents). -/
structure FailOracles where
  char : Character → Bool := fun _ => false
  loc : Location → Bool := fun _ => false
  plot : PlotPoint → Bool := fun _ => false
  manu : Manuscript → Bool := fun _ => false
  img : GeneratedImage → Bool := fun _ => false

/-- The oracle under which no upsert fails. -/
def FailOracles.none : FailOracles := {}

/-- One backend operation issued by `saveProjectFull`, in issue order: the
awaited metadata `setDoc`, or a delete/upsert dispatched by one of the five
subcollection syncs. -/
inductive SaveEvent where
  | metaWrite (projectId : String)
  | subDelete (subcollectionName : String) (docId : String)
  | subUpsert (subcollectionName : String) (docId : String)
deriving DecidableEq, Repr

/-- Whether a `SaveEvent` is the project metadata write. -/
def SaveEvent.isMetaWrite : SaveEvent → Bool
  | .metaWrite _ => true
  | _ => false

/-- The operations dispatched by one `syncSubcollectionSafe` call, in the
order the promises are pushed: deletes over the remote snapshot, then one
upsert per local item. -/
def syncEvents {α : Type} (subcollectionName : String) (getId : α → String)
    (remote : List (String × α)) (items : List α) : List SaveEvent :=
  let localIds := items.map getId
  (remote.filter (fun d => !localIds.contains d.1)).map
      (fun d => SaveEvent.subDelete subcollectionName d.1)
    ++ items.map (fun i => SaveEvent.subUpsert subcollectionName (getId i))

/-- `saveProjectFull(project)` with an instrumented operation trace.  It
fails if no user is authenticated; otherwise it awaits the metadata
merge-write, then runs the five subcollection syncs (their dispatches are
strictly after the awaited metadata write completes).  `now` is the value of
`new Date().toISOString()` at the call. -/
def saveProjectFullT (currentUser : Option String) (now : String) (oracle : FailOracles)
    (store : FStore) (project : Project) :
    Except String (FStore × List SaveEvent) :=
  match currentUser with
  | none => .error "Usuario no autenticado"
  | some uid =>
    let projectMeta : ProjectMeta :=
      { id := project.id
        title := project.title
        synopsis := project.synopsis
        styleSeed := project.styleSeed
        writingStyle := jsOr project.writingStyle ""
        activeManuscriptId := project.activeManuscriptId
        ownerId := uid
        lastModified := now }
    let rp := store project.id
    let rp1 : RemoteProject :=
      { meta := some projectMeta
        characters :=
          syncSubcollectionSafe oracle.char Character.id rp.characters
            project.memoryCore.characters
        locations :=
          syncSubcollectionSafe oracle.loc Location.id rp.locations
            project.memoryCore.locations
        plotPoints :=
          syncSubcollectionSafe oracle.plot PlotPoint.id rp.plotPoints
            project.memoryCore.plotPoints
        manuscripts :=
          syncSubcollectionSafe oracle.manu Manuscript.id rp.manuscripts
            project.manuscripts
        gallery :=
          syncSubcollectionSafe oracle.img GeneratedImage.id rp.gallery
            project.gallery }
    let events : List SaveEvent :=
      SaveEvent.metaWrite project.id ::
        (syncEvents "characters" Character.id rp.characters project.memoryCore.characters
          ++ syncEvents "locations" Location.id rp.locations project.memoryCore.locations
          ++ syncEvents "plotPoints" PlotPoint.id rp.plotPoints project.memoryCore.plotPoints
          ++ syncEvents "manuscripts" Manuscript.id rp.manuscripts project.manuscripts
          ++ syncEvents "gallery" GeneratedImage.id rp.gallery project.gallery)
    .ok (fun i => if i = project.id then rp1 else store i, events)

/-- `saveProjectFull(project)`: the store transformation alone. -/
def saveProjectFull (currentUser : Option String) (now : String) (oracle : FailOracles)
    (store : FStore) (project : Project) : Except String FStore :=
  (saveProjectFullT currentUser now oracle store project).map Prod.fst

/-- Ascending document-id order: the order in which a Firestore `getDocs`
without `orderBy` returns a collection's documents (`__name__` ascending). -/
def docIdLe {α : Type} (a b : String × α) : Prop := a.1 ≤ b.1

instance {α : Type} : DecidableRel (@docIdLe α) := fun a b => by
  unfold docIdLe
  infer_instance

/-- A collection as `getDocs` returns it: sorted ascending by document id. -/
def getDocsOrdered {α : Type} (s : List (String × α)) : List (String × α) :=
  List.insertionSort docIdLe s

/-- `loadProjectFull(projectId)`: read the metadata document; if it does not
exist return `null`; otherwise read the five subcollections — each coming
back in ascending document-id order, the backend's `getDocs` order — and
assemble the aggregate.  The assembled object takes its scalar fields from
the metadata document, defaults `writingStyle` with `|| ''`, and sets no
`lastModified`. -/
def loadProjectFull (store : FStore) (projectId : String) :
    Except String (Option Project) :=
  let rp := store projectId
  match rp.meta with
  | none => .ok none
  | some data =>
    .ok (some
      { id := data.id
        title := data.title
        synopsis := data.synopsis
        styleSeed := data.styleSeed
        writingStyle := some (jsOr (some data.writingStyle) "")
        activeManuscriptId := data.activeManuscriptId
        gallery := (getDocsOrdered rp.gallery).map Prod.snd
        memoryCore :=
          { characters := (getDocsOrdered rp.characters).map Prod.snd
            locations := (getDocsOrdered rp.locations).map Prod.snd
            plotPoints := (getDocsOrdered rp.plotPoints).map Prod.snd }
        manuscripts := (getDocsOrdered rp.manuscripts).map Prod.snd
        lastModified := none })

/-! ## Version History Ledger (firebase.ts, history services)

One history scope (a manuscript's, an entity's, or the project-metadata
scope) is an association list from generated document id to stored record,
in append order.  `addDoc` generates the fresh id and the client clock
supplies the ISO timestamp; both are inputs here. -/

/-- The record stored by an append: `{content, timestamp, note}`. -/
structure StoredVersion where
  content : String
  timestamp : String
  note : String
deriving DecidableEq, Repr

/-- `saveManuscriptVersion(projectId, manuscriptId, content, note?)` acting on
its scope's history: no-op on empty content, otherwise append a record with
the generated id, the client timestamp, and `note || 'Snapshot automático'`. -/
def saveManuscriptVersion (hist : List (String × StoredVersion))
    (genId now content : String) (note : Option String) :
    List (String × StoredVersion) :=
  if content = "" then hist
  else hist ++ [(genId, { content := content, timestamp := now,
                          note := jsOr note "Snapshot automático" })]

/-- Newest-first order used by `orderBy("timestamp", "desc")`: later
timestamp first, ties broken by the implicit descending document id. -/
def versionBefore (a b : String × StoredVersion) : Prop :=
  b.2.timestamp < a.2.timestamp ∨ (b.2.timestamp = a.2.timestamp ∧ b.1 ≤ a.1)

instance : DecidableRel versionBefore := fun a b => by
  unfold versionBefore
  infer_instance

instance : IsTotal (String × StoredVersion) versionBefore where
  total a b := by
    unfold versionBefore
    rcases lt_trichotomy a.2.timestamp b.2.timestamp with h | h | h
    · exact Or.inr (Or.inl h)
    · rcases le_total a.1 b.1 with hi | hi
      · exact Or.inr (Or.inr ⟨h, hi⟩)
      · exact Or.inl (Or.inr ⟨h.symm, hi⟩)
    · exact Or.inl (Or.inl h)

instance : IsTrans (String × StoredVersion) versionBefore where
  trans a b c hab hbc := by
    unfold versionBefore at *
    rcases hab with hab | ⟨hab1, hab2⟩
    · rcases hbc with hbc | ⟨hbc1, _⟩
      · exact Or.inl (lt_trans hbc hab)
      · exact Or.inl (hbc1.trans_lt hab)
    · rcases hbc with hbc | ⟨hbc1, hbc2⟩
      · exact Or.inl (hbc.trans_eq hab1)
      · exact Or.inr ⟨hbc1.trans hab1, le_trans hbc2 hab2⟩

/-- `getManuscriptHistory(projectId, manuscriptId)` on its scope: all records,
ordered newest-first, each surfaced as `{id, ...data}`. -/
def getManuscriptHistory (hist : List (String × StoredVersion)) :
    List ManuscriptVersion :=
  (List.insertionSort versionBefore hist).map
    (fun d => { id := d.1, content := d.2.content, timestamp := d.2.timestamp,
                note := d.2.note })

/-- `saveEntityVersion(projectId, collectionName, entityId, data, note?)`:
no-op if `data` is absent, otherwise append the `JSON.stringify`-serialized
object (`serialize` stands for `JSON.stringify`). -/
def saveEntityVersion {α : Type} (serialize : α → String)
    (hist : List (String × StoredVersion)) (genId now : String)
    (data : Option α) (note : Option String) : List (String × StoredVersion) :=
  match data with
  | none => hist
  | some d =>
    hist ++ [(genId, { content := serialize d, timestamp := now,
                       note := jsOr note "Snapshot automático" })]

/-- `getEntityHistory(projectId, collectionName, entityId)`: same retrieval as
the manuscript history, on an entity's scope. -/
def getEntityHistory (hist : List (String × StoredVersion)) :
    List ManuscriptVersion :=
  (List.insertionSort versionBefore hist).map
    (fun d => { id := d.1, content := d.2.content, timestamp := d.2.timestamp,
                note := d.2.note })

/-- `saveProjectMetadataVersion(projectId, data, note?)`: no-op if `data` is
absent, otherwise append the serialized metadata object. -/
def saveProjectMetadataVersion {α : Type} (serialize : α → String)
    (hist : List (String × StoredVersion)) (genId now : String)
    (data : Option α) (note : Option String) : List (String × StoredVersion) :=
  match data with
  | none => hist
  | some d =>
    hist ++ [(genId, { content := serialize d, timestamp := now,
                       note := jsOr note "Snapshot automático" })]

/-- `getProjectMetadataHistory(projectId)`: same retrieval, on the
project-metadata scope. -/
def getProjectMetadataHistory (hist : List (String × StoredVersion)) :
    List ManuscriptVersion :=
  (List.insertionSort versionBefore hist).map
    (fun d => { id := d.1, content := d.2.content, timestamp := d.2.timestamp,
                note := d.2.note })

/-! ### Ledger operations with the backend failure surface explicit

Every ledger function wraps its backend calls in `try { ... } catch (e) {
console.error(...) }` and never rethrows: an append failure returns normally
with the record lost, a retrieval failure returns `[]`.  `err` injects the
backend failure. -/

/-- `saveManuscriptVersion` with an injected backend failure. -/
def saveManuscriptVersionE (err : Option String)
    (hist : List (String × StoredVersion)) (genId now content : String)
    (note : Option String) : Except String (List (String × StoredVersion)) :=
  if content = "" then .ok hist
  else
    match err with
    | some _ => .ok hist
    | none => .ok (saveManuscriptVersion hist genId now content note)

/-- `getManuscriptHistory` with an injected backend failure. -/
def getManuscriptHistoryE (err : Option String)
    (hist : List (String × StoredVersion)) : Except String (List ManuscriptVersion) :=
  match err with
  | some _ => .ok []
  | none => .ok (getManuscriptHistory hist)

/-- `saveEntityVersion` with an injected backend failure. -/
def saveEntityVersionE {α : Type} (serialize : α → String) (err : Option String)
    (hist : List (String × StoredVersion)) (genId now : String)
    (data : Option α) (note : Option String) :
    Except String (List (String × StoredVersion)) :=
  match data with
  | none => .ok hist
  | some _ =>
    match err with
    | some _ => .ok hist
    | none => .ok (saveEntityVersion serialize hist genId now data note)

/-- `getEntityHistory` with an injected backend failure. -/
def getEntityHistoryE (err : Option String)
    (hist : List (String × StoredVersion)) : Except String (List ManuscriptVersion) :=
  match err with
  | some _ => .ok []
  | none => .ok (getEntityHistory hist)

/-- `saveProjectMetadataVersion` with an injected backend failure. -/
def saveProjectMetadataVersionE {α : Type} (serialize : α → String)
    (err : Option String) (hist : List (String × StoredVersion))
    (genId now : String) (data : Option α) (note : Option String) :
    Except String (List (String × StoredVersion)) :=
  match data with
  | none => .ok hist
  | some _ =>
    match err with
    | some _ => .ok hist
    | none => .ok (saveProjectMetadataVersion serialize hist genId now data note)

/-- `getProjectMetadataHistory` with an injected backend failure. -/
def getProjectMetadataHistoryE (err : Option String)
    (hist : List (String × StoredVersion)) : Except String (List ManuscriptVersion) :=
  match err with
  | some _ => .ok []
  | none => .ok (getProjectMetadataHistory hist)

/-! ## Visual Studio (VisualStudio.tsx) -/

/-- `SAFE_LIMIT_BYTES = 950 * 1024` (950 KB, under the 1 MB document limit). -/
def SAFE_LIMIT_BYTES : ℚ := 950 * 1024

/-- `getBase64SizeInBytes`: `length * 0.75` minus the `=` padding.  The
JavaScript float arithmetic is exact for these operands, so rationals model
it without loss. -/
def getBase64SizeInBytes (base64String : String) : ℚ :=
  let padding : ℚ :=
    if jsEndsWith base64String "==" then 2
    else if jsEndsWith base64String "=" then 1
    else 0
  (base64String.length : ℚ) * (3 / 4) - padding

/-- The gallery update performed by `handleGenerate` once the AI returned
`imageUrl` (or `null`): an oversized image is alerted and dropped, otherwise
a fresh gallery entry is prepended.  Returns the new project state and
whether the size alert fired. -/
def handleGenerate (newId : String) (imageUrl : Option String) (project : Project) :
    Project × Bool :=
  match imageUrl with
  | none => (project, false)
  | some url =>
    let size := getBase64SizeInBytes url
    if size > SAFE_LIMIT_BYTES then (project, true)
    else
      ({ project with
          gallery := { id := newId, src := url } :: project.gallery }, false)

/-- `handleImageUpload` for a selected file: reject when the binary size
exceeds the limit; otherwise, once the reader produced the base64 data URL,
reject again when the encoded size exceeds the limit; otherwise prepend the
image.  Returns the new project state and whether a size alert fired. -/
def handleImageUpload (newId : String) (fileSize : ℚ) (base64 : Option String)
    (project : Project) : Project × Bool :=
  if fileSize > SAFE_LIMIT_BYTES then (project, true)
  else
    match base64 with
    | none => (project, false)
    | some s =>
      if getBase64SizeInBytes s > SAFE_LIMIT_BYTES then (project, true)
      else
        ({ project with
            gallery := { id := newId, src := s } :: project.gallery }, false)

/-- `handleAssignImage(image, newTargetId)`: the functional state update
applied to the project.  `newTargetId` is `"type-id"` or `"none"`.  Note the
source parses target keys with `split('-')` and destructures only the first
two chunks. -/
def handleAssignImage (project : Project) (image : GeneratedImage)
    (newTargetId : String) : Project :=
  let oldTargetId := image.assignedToId
  -- Step 1: update the old target entity (remove image URL/ID)
  let p1 : Project :=
    match oldTargetId with
    | some old =>
      if old ≠ "" ∧ old ≠ newTargetId then
        let parts := jsSplit old '-'
        let oldType := parts.headD ""
        let oldId := (parts.drop 1).head?
        let mc := project.memoryCore
        { project with
            memoryCore :=
              { characters :=
                  if oldType = "character" then
                    mc.characters.map (fun item =>
                      if oldId = some item.id then { item with imageUrl := some "" }
                      else item)
                  else mc.characters
                locations :=
                  if oldType = "location" then
                    mc.locations.map (fun item =>
                      if oldId = some item.id then { item with imageUrl := some "" }
                      else item)
                  else mc.locations
                plotPoints :=
                  if oldType = "plot" then
                    mc.plotPoints.map (fun item =>
                      if oldId = some item.id then { item with imageUrl := some "" }
                      else item)
                  else mc.plotPoints } }
      else project
    | none => project
  -- Step 2: update the new target entity (store the gallery image id)
  let p2 : Project :=
    if newTargetId ≠ "none" then
      let parts := jsSplit newTargetId '-'
      let newType := parts.headD ""
      let newId := (parts.drop 1).head?
      let mc := p1.memoryCore
      { p1 with
          memoryCore :=
            { characters :=
                if newType = "character" then
                  mc.characters.map (fun item =>
                    if newId = some item.id then { item with imageUrl := some image.id }
                    else item)
                else mc.characters
              locations :=
                if newType = "location" then
                  mc.locations.map (fun item =>
                    if newId = some item.id then { item with imageUrl := some image.id }
                    else item)
                else mc.locations
              plotPoints :=
                if newType = "plot" then
                  mc.plotPoints.map (fun item =>
                    if newId = some item.id then { item with imageUrl := some image.id }
                    else item)
                else mc.plotPoints } }
    else p1
  -- Step 3: update the gallery
  { p2 with
      gallery := p2.gallery.map (fun galleryImage =>
        if galleryImage.id ≠ image.id ∧ galleryImage.assignedToId = some newTargetId
            ∧ newTargetId ≠ "none" then
          { galleryImage with assignedToId := none }
        else if galleryImage.id = image.id then
          { galleryImage with
              assignedToId := if newTargetId = "none" then none else some newTargetId }
        else galleryImage) }

/-! ## Auxiliary definitions for stating and instantiating the claims -/

instance {ε α : Type} [DecidableEq ε] [DecidableEq α] : DecidableEq (Except ε α) :=
  fun x y =>
    match x, y with
    | .ok a, .ok b =>
      if h : a = b then .isTrue (by rw [h]) else .isFalse (fun hc => h (by cases hc; rfl))
    | .error a, .error b =>
      if h : a = b then .isTrue (by rw [h]) else .isFalse (fun hc => h (by cases hc; rfl))
    | .ok _, .error _ => .isFalse (fun hc => Except.noConfusion hc)
    | .error _, .ok _ => .isFalse (fun hc => Except.noConfusion hc)

/-- One `saveManuscriptVersion` call on a fixed scope: the generated document
id, the client-clock timestamp at the call, and the content/note arguments. -/
structure AppendCall where
  genId : String
  now : String
  content : String
  note : Option String
deriving DecidableEq, Repr

/-- Run a sequence of `saveManuscriptVersion` calls on one scope, starting
from an empty history. -/
def appendAll (calls : List AppendCall) : List (String × StoredVersion) :=
  calls.foldl (fun h c => saveManuscriptVersion h c.genId c.now c.content c.note) []

/-- The calls of a sequence that actually append a record (non-empty
content; the others are silent no-ops by design). -/
def appendedCalls (calls : List AppendCall) : List AppendCall :=
  calls.filter (fun c => !(c.content == ""))

/-- The record stored for one appending call. -/
def recordOf (c : AppendCall) : String × StoredVersion :=
  (c.genId, { content := c.content, timestamp := c.now,
              note := jsOr c.note "Snapshot automático" })

/-- A store with no documents at all. -/
def emptyStore : FStore := fun _ => RemoteProject.empty

/-- A small concrete character used to instantiate theorems. -/
def sampleCharacter : Character :=
  { id := "c1", name := "Kael", age := "19", role := "Protagonista",
    psychology := "p", backstory := "b", relationships := "rel" }

/-- A second concrete character. -/
def sampleCharacter2 : Character :=
  { id := "c2", name := "Elara", age := "20", role := "Rival",
    psychology := "p2", backstory := "b2", relationships := "rel2" }

/-- A concrete remote collection used to instantiate the sync theorems. -/
def c1Remote : List (String × Character) := [("zz", sampleCharacter)]

/-- A concrete local item list used to instantiate the sync theorems. -/
def c1Items : List Character := [sampleCharacter, sampleCharacter2]

/-- An upsert-failure oracle under which exactly `sampleCharacter2` fails. -/
def c2Fails (c : Character) : Bool := c.id == "c2"

/-- A small concrete project with every optional metadata field present. -/
def sampleProject : Project :=
  { id := "p", title := "t", synopsis := "s", styleSeed := "ss",
    writingStyle := some "w",
    memoryCore := { characters := [sampleCharacter, sampleCharacter2],
                    locations := [], plotPoints := [] },
    manuscripts := [{ id := "m1", title := "mt", content := "mc" }],
    activeManuscriptId := "m1",
    gallery := [{ id := "g1", src := "data" }],
    lastModified := none }

/-- The same project with `writingStyle` left `undefined`: the input on which
the save/load round trip fails to reproduce the aggregate. -/
def projNoStyle : Project :=
  { sampleProject with
    writingStyle := none
    memoryCore := { characters := [], locations := [], plotPoints := [] }
    manuscripts := []
    gallery := [] }

/-- Save `projNoStyle` fresh, then load it back: the composition
`loadFull(saveFull(P).id)` of the round-trip property. -/
def roundTripNoStyle : Except String (Option Project) :=
  (saveProjectFull (some "u") "2024-01-01T00:00:00.000Z" FailOracles.none
      emptyStore projNoStyle).bind
    (fun st => loadProjectFull st "p")

/-- A base64 data-URL-sized payload of 1,300,000 characters: its encoded
size, 975,000 bytes, exceeds the 950 KB safe limit. -/
def bigPayload : String := String.mk (List.replicate 1300000 'A')

/-- Two history appends with distinct client-clock timestamps. -/
def c7Calls : List AppendCall :=
  [{ genId := "a", now := "2024-01-01T00:00:00.000Z", content := "x", note := none },
   { genId := "b", now := "2024-01-02T00:00:00.000Z", content := "y", note := none }]

/-- Two history appends that land on the same client-clock millisecond. -/
def histTie : List (String × StoredVersion) :=
  appendAll
    [{ genId := "a", now := "2024-01-01T00:00:00.000Z", content := "x", note := none },
     { genId := "b", now := "2024-01-01T00:00:00.000Z", content := "y", note := none }]

/-- The gallery image of the image-assignment failing input: currently
assigned to the character with UUID-style id `"aa-1"`. -/
def assignImage : GeneratedImage :=
  { id := "img1", src := "x", assignedToId := some "character-aa-1" }

/-- The project of the image-assignment failing input: the image is assigned
to the character with id `"aa-1"`, and the target of the new assignment is
the character with id `"bb-2"`; both ids contain a hyphen, as every
`crypto.randomUUID()`-generated id does. -/
def assignProject : Project :=
  { id := "p", title := "t", synopsis := "s", styleSeed := "ss",
    writingStyle := some "w",
    memoryCore :=
      { characters :=
          [{ id := "aa-1", name := "T0", age := "", role := "", psychology := "",
             backstory := "", relationships := "", imageUrl := some "img1" },
           { id := "bb-2", name := "T", age := "", role := "", psychology := "",
             backstory := "", relationships := "", imageUrl := none }],
        locations := [], plotPoints := [] },
    manuscripts := [], activeManuscriptId := "", gallery := [assignImage],
    lastModified := none }

/-! ## Lemmas about the document-store primitives -/

theorem lookupDoc_eq_none_iff {α : Type} (s : List (String × α)) (k : String) :
    lookupDoc s k = none ↔ k ∉ s.map Prod.fst := by
  induction s with
  | nil => simp [lookupDoc]
  | cons d ds ih =>
    by_cases h : d.1 = k
    · simp [lookupDoc, h]
    · simp [lookupDoc, h, ih, Ne.symm h]

theorem lookupDoc_isSome_iff {α : Type} (s : List (String × α)) (k : String) :
    (lookupDoc s k).isSome = true ↔ k ∈ s.map Prod.fst := by
  rw [← not_iff_not, ← lookupDoc_eq_none_iff s k]
  cases lookupDoc s k <;> simp

theorem lookupDoc_setDocMerge_self {α : Type} (s : List (String × α)) (k : String) (v : α) :
    lookupDoc (setDocMerge s k v) k = some v := by
  induction s with
  | nil => simp [setDocMerge, lookupDoc]
  | cons d ds ih =>
    by_cases h : d.1 = k
    · simp [setDocMerge, h, lookupDoc]
    · simp [setDocMerge, h, lookupDoc, ih]

theorem lookupDoc_setDocMerge_ne {α : Type} (s : List (String × α)) (k k' : String) (v : α)
    (h : k' ≠ k) : lookupDoc (setDocMerge s k v) k' = lookupDoc s k' := by
  induction s with
  | nil => simp [setDocMerge, lookupDoc, Ne.symm h]
  | cons d ds ih =>
    by_cases hd : d.1 = k
    · subst hd
      simp [setDocMerge, lookupDoc, Ne.symm h]
    · simp [setDocMerge, hd, lookupDoc, ih]

theorem setDocMerge_of_lookupDoc_eq {α : Type} (s : List (String × α)) (k : String) (v : α)
    (h : lookupDoc s k = some v) : setDocMerge s k v = s := by
  induction s with
  | nil => simp [lookupDoc] at h
  | cons d ds ih =>
    by_cases hd : d.1 = k
    · subst hd
      simp [lookupDoc] at h
      simp [setDocMerge, ← h]
    · simp [lookupDoc, hd] at h
      simp [setDocMerge, hd, ih h]

theorem keys_setDocMerge_of_mem {α : Type} (s : List (String × α)) (k : String) (v : α)
    (h : k ∈ s.map Prod.fst) :
    (setDocMerge s k v).map Prod.fst = s.map Prod.fst := by
  induction s with
  | nil => simp at h
  | cons d ds ih =>
    by_cases hd : d.1 = k
    · simp only [setDocMerge, if_pos hd, List.map_cons]
      rw [hd]
    · simp only [setDocMerge, if_neg hd, List.map_cons]
      rw [List.map_cons, List.mem_cons] at h
      rcases h with h | h
      · exact absurd h.symm hd
      · rw [ih h]

theorem setDocMerge_of_not_mem {α : Type} (s : List (String × α)) (k : String) (v : α)
    (h : k ∉ s.map Prod.fst) : setDocMerge s k v = s ++ [(k, v)] := by
  induction s with
  | nil => simp [setDocMerge]
  | cons d ds ih =>
    rw [List.map_cons, List.mem_cons] at h
    push_neg at h
    simp only [setDocMerge, if_neg (fun hc : d.1 = k => h.1 hc.symm), List.cons_append]
    rw [ih h.2]

theorem lookupDoc_applyDeletes_of_mem {α : Type} (remote : List (String × α))
    (localIds : List String) (k : String) (h : k ∈ localIds) :
    lookupDoc (applyDeletes remote localIds) k = lookupDoc remote k := by
  induction remote with
  | nil => simp [applyDeletes]
  | cons d ds ih =>
    by_cases hd : d.1 = k
    · simp [applyDeletes, List.filter_cons, h, lookupDoc, hd] at ih ⊢
    · by_cases hm : d.1 ∈ localIds
      · simp [applyDeletes, List.filter_cons, hm, lookupDoc, hd] at ih ⊢
        exact ih
      · simp [applyDeletes, List.filter_cons, hm, lookupDoc, hd] at ih ⊢
        exact ih

theorem lookupDoc_applyDeletes_of_not_mem {α : Type} (remote : List (String × α))
    (localIds : List String) (k : String) (h : k ∉ localIds) :
    lookupDoc (applyDeletes remote localIds) k = none := by
  induction remote with
  | nil => simp [applyDeletes, lookupDoc]
  | cons d ds ih =>
    by_cases hm : d.1 ∈ localIds
    · have hd : d.1 ≠ k := fun hk => h (hk ▸ hm)
      simp [applyDeletes, List.filter_cons, hm, lookupDoc, hd] at ih ⊢
      exact ih
    · simp [applyDeletes, List.filter_cons, hm] at ih ⊢
      exact ih

theorem keys_applyDeletes_subset {α : Type} (remote : List (String × α))
    (localIds : List String) (k : String)
    (h : k ∈ (applyDeletes remote localIds).map Prod.fst) : k ∈ localIds := by
  simp only [applyDeletes, List.mem_map] at h
  obtain ⟨d, hmem, hk⟩ := h
  have := (List.mem_filter.mp hmem).2
  rw [hk] at this
  exact List.elem_iff.mp this

/-! ## Lemmas about `lastWrite` and the upsert fold -/

theorem lastWrite_acc {α : Type} (fails : α → Bool) (getId : α → String)
    (items : List α) (k : String) (acc : Option α) :
    items.foldl (fun a i => if fails i = false ∧ getId i = k then some i else a) acc
      = match items.foldl (fun a i => if fails i = false ∧ getId i = k then some i else a)
              none with
        | some v => some v
        | none => acc := by
  induction items generalizing acc with
  | nil => simp
  | cons i rest ih =>
    simp only [List.foldl_cons]
    by_cases hi : fails i = false ∧ getId i = k
    · rw [if_pos hi, if_pos hi, ih (some i)]
      cases rest.foldl (fun a i => if fails i = false ∧ getId i = k then some i else a) none
          <;> rfl
    · rw [if_neg hi, if_neg hi, ih acc]

theorem lastWrite_cons {α : Type} (fails : α → Bool) (getId : α → String)
    (i : α) (items : List α) (k : String) :
    lastWrite fails getId (i :: items) k
      = match lastWrite fails getId items k with
        | some v => some v
        | none => if fails i = false ∧ getId i = k then some i else none := by
  simp only [lastWrite, List.foldl_cons]
  rw [lastWrite_acc]

theorem lookupDoc_foldl_applyUpsert {α : Type} (fails : α → Bool) (getId : α → String)
    (items : List α) (k : String) (s : List (String × α)) :
    lookupDoc (items.foldl (applyUpsert fails getId) s) k
      = match lastWrite fails getId items k with
        | some v => some v
        | none => lookupDoc s k := by
  induction items generalizing s with
  | nil => simp [lastWrite]
  | cons i rest ih =>
    rw [List.foldl_cons, ih, lastWrite_cons]
    cases hrest : lastWrite fails getId rest k with
    | some v => rfl
    | none =>
      simp only []
      by_cases hi : fails i = false ∧ getId i = k
      · rw [if_pos hi]
        simp only [applyUpsert, hi.1, Bool.false_eq_true, if_false]
        rw [hi.2]
        exact lookupDoc_setDocMerge_self s k i
      · rw [if_neg hi]
        simp only []
        cases hf : fails i with
        | true => simp [applyUpsert, hf]
        | false =>
          have hk : getId i ≠ k := fun hc => hi ⟨hf, hc⟩
          simp only [applyUpsert, hf, Bool.false_eq_true, if_false]
          exact lookupDoc_setDocMerge_ne s (getId i) k i (Ne.symm hk)

theorem lastWrite_eq_none_iff {α : Type} (fails : α → Bool) (getId : α → String)
    (items : List α) (k : String) :
    lastWrite fails getId items k = none
      ↔ ∀ i ∈ items, fails i = true ∨ getId i ≠ k := by
  induction items with
  | nil => simp [lastWrite]
  | cons i rest ih =>
    rw [lastWrite_cons]
    cases hrest : lastWrite fails getId rest k with
    | some v =>
      simp only []
      constructor
      · intro hc
        exact Option.noConfusion hc
      · intro hall
        have hn : lastWrite fails getId rest k = none :=
          ih.mpr fun j hj => hall j (List.mem_cons_of_mem i hj)
        rw [hn] at hrest
        exact Option.noConfusion hrest
    | none =>
      simp only []
      constructor
      · intro hc
        intro j hj
        rcases List.mem_cons.mp hj with hj | hj
        · subst hj
          by_cases hf : fails j = true
          · exact Or.inl hf
          · refine Or.inr fun hk => ?hk
            rw [if_pos ⟨by simpa using hf, hk⟩] at hc
            exact Option.noConfusion hc
        · exact (ih.mp hrest) j hj
      · intro hall
        rcases hall i (List.mem_cons_self i rest) with hf | hk
        · rw [if_neg fun hc => by rw [hc.1] at hf; exact Bool.noConfusion hf]
        · rw [if_neg fun hc => hk hc.2]

theorem lastWrite_eq_some_mem {α : Type} (fails : α → Bool) (getId : α → String)
    (items : List α) (k : String) (v : α)
    (h : lastWrite fails getId items k = some v) :
    v ∈ items ∧ getId v = k ∧ fails v = false := by
  induction items with
  | nil => simp [lastWrite] at h
  | cons i rest ih =>
    rw [lastWrite_cons] at h
    cases hrest : lastWrite fails getId rest k with
    | some w =>
      rw [hrest] at h
      simp only [Option.some.injEq] at h
      subst h
      obtain ⟨hm, hk, hf⟩ := ih hrest
      exact ⟨List.mem_cons_of_mem i hm, hk, hf⟩
    | none =>
      rw [hrest] at h
      simp only [] at h
      by_cases hi : fails i = false ∧ getId i = k
      · rw [if_pos hi] at h
        simp only [Option.some.injEq] at h
        subst h
        exact ⟨List.mem_cons_self i rest, hi.2, hi.1⟩
      · rw [if_neg hi] at h
        exact Option.noConfusion h

theorem lastWrite_of_nodup {α : Type} (fails : α → Bool) (getId : α → String)
    (items : List α) (i : α) (hnd : (items.map getId).Nodup)
    (hi : i ∈ items) (hf : fails i = false) :
    lastWrite fails getId items (getId i) = some i := by
  induction items with
  | nil => simp at hi
  | cons j rest ih =>
    rw [List.map_cons, List.nodup_cons] at hnd
    rw [lastWrite_cons]
    rcases List.mem_cons.mp hi with hij | hmem
    · subst hij
      have hnone : lastWrite fails getId rest (getId i) = none := by
        rw [lastWrite_eq_none_iff]
        intro x hx
        refine Or.inr fun hk => hnd.1 ?hk
        rw [← hk]
        exact List.mem_map_of_mem getId hx
      rw [hnone]
      simp [hf]
    · rw [ih hnd.2 hmem]

theorem lookupDoc_sync {α : Type} (fails : α → Bool) (getId : α → String)
    (remote : List (String × α)) (items : List α) (k : String) :
    lookupDoc (syncSubcollectionSafe fails getId remote items) k
      = match lastWrite fails getId items k with
        | some v => some v
        | none => lookupDoc (applyDeletes remote (items.map getId)) k := by
  unfold syncSubcollectionSafe
  exact lookupDoc_foldl_applyUpsert fails getId items k _

theorem lookupDoc_sync_of_nodup {α : Type} (fails : α → Bool) (getId : α → String)
    (remote : List (String × α)) (items : List α) (i : α)
    (hnd : (items.map getId).Nodup) (hi : i ∈ items) (hf : fails i = false) :
    lookupDoc (syncSubcollectionSafe fails getId remote items) (getId i) = some i := by
  rw [lookupDoc_sync, lastWrite_of_nodup fails getId items i hnd hi hf]

theorem keys_sync_subset {α : Type} (fails : α → Bool) (getId : α → String)
    (remote : List (String × α)) (items : List α) (k : String)
    (h : k ∈ (syncSubcollectionSafe fails getId remote items).map Prod.fst) :
    k ∈ items.map getId := by
  rw [← lookupDoc_isSome_iff] at h
  rw [lookupDoc_sync] at h
  cases hlw : lastWrite fails getId items k with
  | some v =>
    obtain ⟨hm, hk, _⟩ := lastWrite_eq_some_mem fails getId items k v hlw
    rw [← hk]
    exact List.mem_map_of_mem getId hm
  | none =>
    rw [hlw] at h
    simp only [] at h
    rw [lookupDoc_isSome_iff] at h
    exact keys_applyDeletes_subset remote (items.map getId) k h

/-! ## The claims about the Subcollection Synchronizer -/

/-- Claim C1: for every collection and local item list whose items all have
non-empty (and, per the data-model invariant, unique) ids, a sync in which no
individual upsert fails makes the remote document id set exactly the local id
set; every item is stored under its own id, and every remote document whose
id is not local is deleted. -/
theorem claim_C1 {α : Type} (fails : α → Bool) (getId : α → String)
    (remote : List (String × α)) (items : List α)
    (hne : ∀ i ∈ items, getId i ≠ "")
    (hok : ∀ i ∈ items, fails i = false)
    (hnd : (items.map getId).Nodup) :
    ((syncSubcollectionSafe fails getId remote items).map Prod.fst).toFinset
        = (items.map getId).toFinset
      ∧ (∀ i ∈ items,
          lookupDoc (syncSubcollectionSafe fails getId remote items) (getId i) = some i)
      ∧ (∀ k ∈ remote.map Prod.fst, k ∉ items.map getId →
          lookupDoc (syncSubcollectionSafe fails getId remote items) k = none) := by
  refine ⟨?keys, ?stored, ?deleted⟩
  case keys =>
    apply Finset.ext
    intro k
    simp only [List.mem_toFinset]
    constructor
    · exact keys_sync_subset fails getId remote items k
    · intro hk
      rw [← lookupDoc_isSome_iff]
      obtain ⟨i, hi, hik⟩ := List.mem_map.mp hk
      rw [← hik, lookupDoc_sync_of_nodup fails getId remote items i hnd hi (hok i hi)]
      rfl
  case stored =>
    intro i hi
    exact lookupDoc_sync_of_nodup fails getId remote items i hnd hi (hok i hi)
  case deleted =>
    intro k _ hkl
    rw [lookupDoc_sync]
    have hnone : lastWrite fails getId items k = none := by
      rw [lastWrite_eq_none_iff]
      intro x hx
      refine Or.inr fun hk => hkl ?xmem
      rw [← hk]
      exact List.mem_map_of_mem getId hx
    rw [hnone]
    simp only []
    exact lookupDoc_applyDeletes_of_not_mem remote (items.map getId) k hkl

/-- Witness for claim C1 at a concrete collection state. -/
theorem claim_C1_witness :
    ((syncSubcollectionSafe (fun _ => false) Character.id c1Remote c1Items).map
        Prod.fst).toFinset = (c1Items.map Character.id).toFinset
      ∧ (∀ i ∈ c1Items,
          lookupDoc (syncSubcollectionSafe (fun _ => false) Character.id c1Remote c1Items)
            (Character.id i) = some i)
      ∧ (∀ k ∈ c1Remote.map Prod.fst, k ∉ c1Items.map Character.id →
          lookupDoc (syncSubcollectionSafe (fun _ => false) Character.id c1Remote c1Items)
            k = none) :=
  claim_C1 (fun _ => false) Character.id c1Remote c1Items
    (by decide) (fun _ _ => rfl) (by decide)

/-- Claim C2: when exactly one item's upsert fails, the sync still returns
normally (no rejection escapes `Promise.all`, the per-item failure being
caught), every other item is persisted under its id, and the failing item's
document is left exactly as it was on the remote before the call. -/
theorem claim_C2 {α : Type} (fails : α → Bool) (getId : α → String)
    (remote : List (String × α)) (items : List α) (j : α)
    (hnd : (items.map getId).Nodup) (hj : j ∈ items) (hjf : fails j = true)
    (hothers : ∀ i ∈ items, i ≠ j → fails i = false) :
    syncSubcollectionSafeE fails (fun _ => false) getId remote items
        = .ok (syncSubcollectionSafe fails getId remote items)
      ∧ (∀ i ∈ items, i ≠ j →
          lookupDoc (syncSubcollectionSafe fails getId remote items) (getId i) = some i)
      ∧ lookupDoc (syncSubcollectionSafe fails getId remote items) (getId j)
          = lookupDoc remote (getId j) := by
  refine ⟨?ok, ?others, ?lost⟩
  case ok => simp [syncSubcollectionSafeE]
  case others =>
    intro i hi hne
    exact lookupDoc_sync_of_nodup fails getId remote items i hnd hi (hothers i hi hne)
  case lost =>
    rw [lookupDoc_sync]
    have hnone : lastWrite fails getId items (getId j) = none := by
      rw [lastWrite_eq_none_iff]
      intro x hx
      by_cases hxj : x = j
      · subst hxj
        exact Or.inl hjf
      · refine Or.inr fun hk => hxj ?xj
        exact List.inj_on_of_nodup_map hnd hx hj hk
    rw [hnone]
    simp only []
    exact lookupDoc_applyDeletes_of_mem remote (items.map getId) (getId j)
      (List.mem_map_of_mem getId hj)

/-- Witness for claim C2 at a concrete collection state in which exactly the
second item's upsert fails. -/
theorem claim_C2_witness :
    syncSubcollectionSafeE c2Fails (fun _ => false) Character.id c1Remote c1Items
        = .ok (syncSubcollectionSafe c2Fails Character.id c1Remote c1Items)
      ∧ (∀ i ∈ c1Items, i ≠ sampleCharacter2 →
          lookupDoc (syncSubcollectionSafe c2Fails Character.id c1Remote c1Items)
            (Character.id i) = some i)
      ∧ lookupDoc (syncSubcollectionSafe c2Fails Character.id c1Remote c1Items)
          (Character.id sampleCharacter2) = lookupDoc c1Remote (Character.id sampleCharacter2) :=
  claim_C2 c2Fails Character.id c1Remote c1Items sampleCharacter2
    (by decide) (by decide) (by decide) (by decide)

/-- Claim C6: syncing the same local list twice leaves the remote collection
literally identical to the state after the first sync — the operation is
idempotent, with no duplicate documents and no drift (item ids are unique per
the data-model invariant; the per-item failure oracle is arbitrary but, being
determined by the item payload, identical across the two calls). -/
theorem claim_C6 {α : Type} (fails : α → Bool) (getId : α → String)
    (remote : List (String × α)) (items : List α)
    (hnd : (items.map getId).Nodup) :
    syncSubcollectionSafe fails getId (syncSubcollectionSafe fails getId remote items) items
      = syncSubcollectionSafe fails getId remote items := by
  have hdel : applyDeletes (syncSubcollectionSafe fails getId remote items)
      (items.map getId) = syncSubcollectionSafe fails getId remote items := by
    unfold applyDeletes
    rw [List.filter_eq_self]
    intro d hd
    have hmem : d.1 ∈ items.map getId :=
      keys_sync_subset fails getId remote items d.1 (List.mem_map_of_mem Prod.fst hd)
    exact List.elem_iff.mpr hmem
  have hfix : ∀ (l : List α), (∀ i ∈ l, i ∈ items) →
      l.foldl (applyUpsert fails getId) (syncSubcollectionSafe fails getId remote items)
        = syncSubcollectionSafe fails getId remote items := by
    intro l
    induction l with
    | nil => intro _; rfl
    | cons i rest ih =>
      intro hsub
      have hstep : applyUpsert fails getId (syncSubcollectionSafe fails getId remote items) i
          = syncSubcollectionSafe fails getId remote items := by
        cases hf : fails i with
        | true => simp [applyUpsert, hf]
        | false =>
          simp only [applyUpsert, hf, Bool.false_eq_true, if_false]
          exact setDocMerge_of_lookupDoc_eq _ _ _
            (lookupDoc_sync_of_nodup fails getId remote items i hnd
              (hsub i (List.mem_cons_self i rest)) hf)
      rw [List.foldl_cons, hstep]
      exact ih fun x hx => hsub x (List.mem_cons_of_mem i hx)
  show List.foldl (applyUpsert fails getId)
      (applyDeletes (syncSubcollectionSafe fails getId remote items) (items.map getId)) items
    = syncSubcollectionSafe fails getId remote items
  rw [hdel]
  exact hfix items fun _ h => h

/-- Witness for claim C6 at a concrete collection state. -/
theorem claim_C6_witness :
    syncSubcollectionSafe c2Fails Character.id
        (syncSubcollectionSafe c2Fails Character.id c1Remote c1Items) c1Items
      = syncSubcollectionSafe c2Fails Character.id c1Remote c1Items :=
  claim_C6 c2Fails Character.id c1Remote c1Items (by decide)

/-! ## The claims about the Project Store -/

theorem isMetaWrite_syncEvents {α : Type} (n : String) (getId : α → String)
    (remote : List (String × α)) (items : List α) :
    ∀ e ∈ syncEvents n getId remote items, e.isMetaWrite = false := by
  intro e he
  simp only [syncEvents, List.mem_append, List.mem_map] at he
  rcases he with ⟨d, _, hd⟩ | ⟨i, _, hi⟩
  · rw [← hd]
    rfl
  · rw [← hi]
    rfl

/-- Claim C3: within one authenticated `saveProjectFull` call, the first
backend operation is the awaited project-metadata write, and every operation
dispatched after it belongs to one of the five subcollection syncs — no
entity write is issued before the metadata write has completed. -/
theorem claim_C3 (currentUser : Option String) (uid now : String)
    (oracle : FailOracles) (store : FStore) (project : Project)
    (huser : currentUser = some uid) :
    ∃ st events,
      saveProjectFullT currentUser now oracle store project = .ok (st, events)
        ∧ events.head? = some (SaveEvent.metaWrite project.id)
        ∧ ∀ e ∈ events.tail, e.isMetaWrite = false := by
  subst huser
  refine ⟨_, _, rfl, rfl, ?tail⟩
  intro e he
  simp only [List.tail_cons, List.mem_append] at he
  rcases he with ((((he | he) | he) | he) | he)
    <;> exact isMetaWrite_syncEvents _ _ _ _ e he

/-- Witness for claim C3 at a concrete project and store. -/
theorem claim_C3_witness :
    ∃ st events,
      saveProjectFullT (some "u") "2024-01-01T00:00:00.000Z" FailOracles.none
          emptyStore sampleProject = .ok (st, events)
        ∧ events.head? = some (SaveEvent.metaWrite sampleProject.id)
        ∧ ∀ e ∈ events.tail, e.isMetaWrite = false :=
  claim_C3 (some "u") "u" "2024-01-01T00:00:00.000Z" FailOracles.none
    emptyStore sampleProject rfl

theorem foldl_applyUpsert_fresh {α : Type} (getId : α → String) :
    ∀ (l : List α) (s : List (String × α)),
      (l.map getId).Nodup → (∀ i ∈ l, getId i ∉ s.map Prod.fst) →
      l.foldl (applyUpsert (fun _ => false) getId) s
        = s ++ l.map (fun i => (getId i, i)) := by
  intro l
  induction l with
  | nil =>
    intro s _ _
    simp
  | cons i rest ih =>
    intro s hnd hfresh
    rw [List.map_cons, List.nodup_cons] at hnd
    rw [List.foldl_cons]
    have hstep : applyUpsert (fun _ => false) getId s i = s ++ [(getId i, i)] := by
      simp only [applyUpsert, Bool.false_eq_true, if_false]
      exact setDocMerge_of_not_mem s (getId i) i (hfresh i (List.mem_cons_self i rest))
    have hfresh2 : ∀ x ∈ rest, getId x ∉ (s ++ [(getId i, i)]).map Prod.fst := by
      intro x hx
      rw [List.map_append, List.mem_append]
      push_neg
      refine ⟨hfresh x (List.mem_cons_of_mem i hx), ?single⟩
      simp only [List.map_cons, List.map_nil, List.mem_singleton]
      intro hc
      exact hnd.1 (hc ▸ List.mem_map_of_mem getId hx)
    rw [hstep, ih (s ++ [(getId i, i)]) hnd.2 hfresh2]
    simp

theorem sync_fresh {α : Type} (getId : α → String) (items : List α)
    (hnd : (items.map getId).Nodup) :
    syncSubcollectionSafe (fun _ => false) getId [] items
      = items.map (fun i => (getId i, i)) := by
  unfold syncSubcollectionSafe
  have hdel : applyDeletes ([] : List (String × α)) (items.map getId) = [] := rfl
  rw [hdel]
  simpa using foldl_applyUpsert_fresh getId items [] hnd (by simp)

theorem jsOr_idem (w : String) : jsOr (some (jsOr (some w) "")) "" = w := by
  by_cases h : w = "" <;> simp [jsOr, h]

theorem getDocsOrdered_of_sorted {α : Type} (getId : α → String) (items : List α)
    (hs : items.Pairwise (fun a b => getId a ≤ getId b)) :
    getDocsOrdered (items.map (fun i => (getId i, i)))
      = items.map (fun i => (getId i, i)) :=
  List.Sorted.insertionSort_eq (List.pairwise_map.mpr hs)

/-- Counterexample to claim C4 as stated: for the project `projNoStyle`,
whose `writingStyle` is `undefined`, a fresh authenticated save with no write
failures followed by a load does not reproduce the project — the load comes
back with `writingStyle` normalised to `""` (and a saved `lastModified` is
likewise never read back). -/
theorem claim_C4_counterexample :
    roundTripNoStyle ≠ .ok (some projNoStyle)
      ∧ roundTripNoStyle = .ok (some { projNoStyle with writingStyle := some "" }) := by
  constructor
  · decide
  · decide

/-- Claim C4 (amended): a fresh authenticated save with no write failures
followed by a load reproduces the project exactly, provided the project's
`writingStyle` is present (load normalises a missing one to `""`), its
`lastModified` is unset (save writes a fresh timestamp that load never reads
back), entity ids are unique within each collection, and each collection is
listed in ascending entity-id order — the order in which `getDocs` returns
the stored documents. -/
theorem claim_C4 (uid now : String) (store : FStore) (p : Project) (w : String)
    (hfresh : store p.id = RemoteProject.empty)
    (hws : p.writingStyle = some w)
    (hlm : p.lastModified = none)
    (hnc : (p.memoryCore.characters.map Character.id).Nodup)
    (hnl : (p.memoryCore.locations.map Location.id).Nodup)
    (hnp : (p.memoryCore.plotPoints.map PlotPoint.id).Nodup)
    (hnm : (p.manuscripts.map Manuscript.id).Nodup)
    (hng : (p.gallery.map GeneratedImage.id).Nodup)
    (hsc : p.memoryCore.characters.Pairwise (fun a b => a.id ≤ b.id))
    (hsl : p.memoryCore.locations.Pairwise (fun a b => a.id ≤ b.id))
    (hsp : p.memoryCore.plotPoints.Pairwise (fun a b => a.id ≤ b.id))
    (hsm : p.manuscripts.Pairwise (fun a b => a.id ≤ b.id))
    (hsg : p.gallery.Pairwise (fun a b => a.id ≤ b.id)) :
    (saveProjectFull (some uid) now FailOracles.none store p).bind
        (fun st => loadProjectFull st p.id) = .ok (some p) := by
  cases p with
  | mk pid ptitle psyn pseed pws pmc pman pact pgal plm =>
    cases pmc with
    | mk pchars plocs pplots =>
      simp only [] at hws hlm hnc hnl hnp hnm hng hsc hsl hsp hsm hsg hfresh
      subst hws
      subst hlm
      have hc := sync_fresh Character.id pchars hnc
      have hl := sync_fresh Location.id plocs hnl
      have hp := sync_fresh PlotPoint.id pplots hnp
      have hm := sync_fresh Manuscript.id pman hnm
      have hg := sync_fresh GeneratedImage.id pgal hng
      have hoc := getDocsOrdered_of_sorted Character.id pchars hsc
      have hol := getDocsOrdered_of_sorted Location.id plocs hsl
      have hop := getDocsOrdered_of_sorted PlotPoint.id pplots hsp
      have hom := getDocsOrdered_of_sorted Manuscript.id pman hsm
      have hog := getDocsOrdered_of_sorted GeneratedImage.id pgal hsg
      simp [saveProjectFull, saveProjectFullT, loadProjectFull, Except.map,
        Except.bind, hfresh, RemoteProject.empty, FailOracles.none,
        hc, hl, hp, hm, hg, hoc, hol, hop, hom, hog,
        List.map_map, Function.comp_def, jsOr_idem]

/-- Witness for the amended claim C4 at a concrete project whose collections
are listed in ascending id order. -/
theorem claim_C4_witness :
    (saveProjectFull (some "u") "2024-01-01T00:00:00.000Z" FailOracles.none
        emptyStore sampleProject).bind
      (fun st => loadProjectFull st sampleProject.id) = .ok (some sampleProject) :=
  claim_C4 "u" "2024-01-01T00:00:00.000Z" emptyStore sampleProject "w"
    rfl rfl rfl (by decide) (by decide) (by decide) (by decide) (by decide)
    (by simp [sampleProject, sampleCharacter, sampleCharacter2]; decide)
    (by simp [sampleProject]) (by simp [sampleProject])
    (by simp [sampleProject]) (by simp [sampleProject])

/-- Claim C8: loading a project whose metadata document does not exist
returns `null` normally — absence is not an error. -/
theorem claim_C8 (store : FStore) (projectId : String)
    (habsent : (store projectId).meta = none) :
    loadProjectFull store projectId = .ok none := by
  simp [loadProjectFull, habsent]

/-- Witness for claim C8 on the empty store. -/
theorem claim_C8_witness : loadProjectFull emptyStore "missing" = .ok none :=
  claim_C8 emptyStore "missing" rfl

/-! ## The claim about image assignment (Visual Studio) -/

/-- Evaluation of claim C5 at its failing input: the gallery image is
assigned from the character with id `"aa-1"` to the character with id
`"bb-2"` — ids that contain a hyphen, as all `crypto.randomUUID()` ids do.
Because `handleAssignImage` parses the target keys with `split('-')` and
keeps only the first chunk of the entity id, neither character's `imageUrl`
is touched: the old holder keeps `"img1"` and the new target never receives
it, while the gallery record alone claims the new assignment. -/
theorem claim_C5_failing_eval :
    (handleAssignImage assignProject assignImage "character-bb-2").memoryCore.characters
        = assignProject.memoryCore.characters
      ∧ (handleAssignImage assignProject assignImage "character-bb-2").gallery
        = [{ id := "img1", src := "x", assignedToId := some "character-bb-2" }] := by
  constructor
  · decide
  · decide

/-! ## The claim about the image size guard (Visual Studio) -/

/-- Claim C9: every image whose encoded size exceeds the 950 KB safe limit is
rejected with an alert by both entry paths — AI generation and file upload —
and the gallery is left unchanged, so no oversized inline payload reaches
the persistence layer through them. -/
theorem claim_C9 (newId : String) (fileSize : ℚ) (url : String) (p : Project)
    (hbig : getBase64SizeInBytes url > SAFE_LIMIT_BYTES) :
    handleGenerate newId (some url) p = (p, true)
      ∧ handleImageUpload newId fileSize (some url) p = (p, true) := by
  constructor
  · simp only [handleGenerate]
    rw [if_pos hbig]
  · unfold handleImageUpload
    by_cases hf : fileSize > SAFE_LIMIT_BYTES
    · rw [if_pos hf]
    · rw [if_neg hf]
      simp only []
      rw [if_pos hbig]

theorem bigPayload_length : bigPayload.length = 1300000 := by
  show (List.replicate 1300000 'A').length = 1300000
  exact List.length_replicate 1300000 'A'

theorem bigPayload_not_endsWith (suffix : String) (h : ('=' : Char) ∈ suffix.data) :
    jsEndsWith bigPayload suffix = false := by
  apply decide_eq_false
  intro hsuf
  have hdata : bigPayload.data = List.replicate 1300000 'A' := rfl
  have hmem : ('=' : Char) ∈ bigPayload.data := hsuf.subset h
  rw [hdata] at hmem
  have : ('=' : Char) = 'A' := List.eq_of_mem_replicate hmem
  exact absurd this (by decide)

theorem bigPayload_size : getBase64SizeInBytes bigPayload = 975000 := by
  unfold getBase64SizeInBytes
  rw [bigPayload_not_endsWith "==" (by decide), bigPayload_not_endsWith "=" (by decide)]
  simp only [Bool.false_eq_true, if_false]
  rw [bigPayload_length]
  norm_num

/-- Witness for claim C9 at a concrete oversized payload. -/
theorem claim_C9_witness :
    handleGenerate "g" (some bigPayload) sampleProject = (sampleProject, true)
      ∧ handleImageUpload "g" 0 (some bigPayload) sampleProject = (sampleProject, true) :=
  claim_C9 "g" 0 bigPayload sampleProject
    (by rw [bigPayload_size]; norm_num [SAFE_LIMIT_BYTES])

/-! ## The claims about the Version History Ledger -/

theorem appendAll_acc (calls : List AppendCall) :
    ∀ (h : List (String × StoredVersion)),
      calls.foldl (fun h c => saveManuscriptVersion h c.genId c.now c.content c.note) h
        = h ++ (appendedCalls calls).map recordOf := by
  induction calls with
  | nil =>
    intro h
    simp [appendedCalls]
  | cons c rest ih =>
    intro h
    rw [List.foldl_cons]
    by_cases hc : c.content = ""
    · have hskip : saveManuscriptVersion h c.genId c.now c.content c.note = h := by
        simp [saveManuscriptVersion, hc]
      rw [hskip, ih h]
      congr 1
      simp [appendedCalls, List.filter_cons, hc]
    · have hsave : saveManuscriptVersion h c.genId c.now c.content c.note
          = h ++ [recordOf c] := by
        simp [saveManuscriptVersion, hc, recordOf]
      rw [hsave, ih]
      simp [appendedCalls, List.filter_cons, hc]

theorem appendAll_eq (calls : List AppendCall) :
    appendAll calls = (appendedCalls calls).map recordOf := by
  simpa using appendAll_acc calls []

/-- Counterexample to claim C7 as stated: two appends whose client-clock
timestamps coincide (the clock has millisecond resolution) are returned with
equal timestamps, so the listing is not in strictly descending timestamp
order. -/
theorem claim_C7_counterexample :
    ¬ (getManuscriptHistory histTie).Pairwise
        (fun a b => b.timestamp < a.timestamp) := by
  have hvb : ¬ versionBefore
      ("a", { content := "x", timestamp := "2024-01-01T00:00:00.000Z",
              note := "Snapshot automático" })
      ("b", { content := "y", timestamp := "2024-01-01T00:00:00.000Z",
              note := "Snapshot automático" }) := by
    rintro (hlt | ⟨heq, hle⟩)
    · exact lt_irrefl _ hlt
    · exact absurd hle (by simp; decide)
  have hist_eq : histTie
      = [("a", { content := "x", timestamp := "2024-01-01T00:00:00.000Z",
                 note := "Snapshot automático" }),
         ("b", { content := "y", timestamp := "2024-01-01T00:00:00.000Z",
                 note := "Snapshot automático" })] := by
    decide
  have hsort : List.insertionSort versionBefore histTie
      = [("b", { content := "y", timestamp := "2024-01-01T00:00:00.000Z",
                 note := "Snapshot automático" }),
         ("a", { content := "x", timestamp := "2024-01-01T00:00:00.000Z",
                 note := "Snapshot automático" })] := by
    rw [hist_eq]
    simp only [List.insertionSort, List.orderedInsert]
    rw [if_neg hvb]
  intro h
  have heval : getManuscriptHistory histTie
      = [{ id := "b", content := "y", timestamp := "2024-01-01T00:00:00.000Z",
           note := "Snapshot automático" },
         { id := "a", content := "x", timestamp := "2024-01-01T00:00:00.000Z",
           note := "Snapshot automático" }] := by
    unfold getManuscriptHistory
    rw [hsort]
    rfl
  rw [heval] at h
  have hlt := (List.pairwise_cons.mp h).1 _ (List.mem_cons_self _ _)
  exact absurd hlt (lt_irrefl _)

/-- Claim C7 (amended): for every sequence of `appendVersion` calls on one
scope whose appended client-clock timestamps are pairwise distinct, the
listing returns the records in strictly descending timestamp order, the
multiset of returned document ids is exactly the multiset of appended ids
(no record lost or duplicated), and an empty scope yields an empty list, not
an error.  (With coinciding timestamps the order is still newest-first but
only weakly descending.) -/
theorem claim_C7 (calls : List AppendCall)
    (hts : ((appendedCalls calls).map AppendCall.now).Nodup) :
    ((getManuscriptHistory (appendAll calls)).map ManuscriptVersion.id).Perm
        ((appendedCalls calls).map AppendCall.genId)
      ∧ (getManuscriptHistory (appendAll calls)).Pairwise
          (fun a b => b.timestamp < a.timestamp)
      ∧ getManuscriptHistory ([] : List (String × StoredVersion)) = [] := by
  have hshape : appendAll calls = (appendedCalls calls).map recordOf := appendAll_eq calls
  have hperm : (List.insertionSort versionBefore (appendAll calls)).Perm (appendAll calls) :=
    List.perm_insertionSort versionBefore (appendAll calls)
  refine ⟨?perm, ?sorted, rfl⟩
  case perm =>
    have hids : (appendAll calls).map Prod.fst
        = (appendedCalls calls).map AppendCall.genId := by
      rw [hshape]
      simp [List.map_map, recordOf, Function.comp_def]
    have hmapped := hperm.map Prod.fst
    rw [hids] at hmapped
    simpa [getManuscriptHistory, List.map_map, Function.comp_def] using hmapped
  case sorted =>
    have hsorted : (List.insertionSort versionBefore (appendAll calls)).Pairwise
        versionBefore :=
      List.sorted_insertionSort versionBefore (appendAll calls)
    have hnodup_ts : ((List.insertionSort versionBefore (appendAll calls)).map
        (fun d => d.2.timestamp)).Nodup := by
      have h1 : ((appendAll calls).map (fun d => d.2.timestamp)).Nodup := by
        rw [hshape]
        simpa [List.map_map, recordOf, Function.comp_def] using hts
      exact ((hperm.map (fun d => d.2.timestamp)).nodup_iff).mpr h1
    have hne : (List.insertionSort versionBefore (appendAll calls)).Pairwise
        (fun a b => a.2.timestamp ≠ b.2.timestamp) :=
      List.pairwise_map.mp hnodup_ts
    have hstrict : (List.insertionSort versionBefore (appendAll calls)).Pairwise
        (fun a b => b.2.timestamp < a.2.timestamp) := by
      refine (hsorted.and hne).imp ?step
      rintro a b ⟨hv, hnab⟩
      rcases hv with h | ⟨heq, _⟩
      · exact h
      · exact absurd heq.symm hnab
    unfold getManuscriptHistory
    exact List.pairwise_map.mpr hstrict

/-- Witness for the amended claim C7 at a concrete call sequence. -/
theorem claim_C7_witness :
    ((getManuscriptHistory (appendAll c7Calls)).map ManuscriptVersion.id).Perm
        ((appendedCalls c7Calls).map AppendCall.genId)
      ∧ (getManuscriptHistory (appendAll c7Calls)).Pairwise
          (fun a b => b.timestamp < a.timestamp)
      ∧ getManuscriptHistory ([] : List (String × StoredVersion)) = [] :=
  claim_C7 c7Calls (by decide)

/-- Claim C10: no Version History Ledger operation ever surfaces a backend
failure to its caller.  Every append returns normally — on failure the
snapshot is silently lost and the history is unchanged — and every listing
returns normally, yielding on failure an empty list indistinguishable from a
scope with no history. -/
theorem claim_C10 {α β : Type} (serE : α → String) (serM : β → String)
    (err : Option String) (hist : List (String × StoredVersion))
    (genId now content : String) (note : Option String)
    (dataE : Option α) (dataM : Option β) :
    (∃ h, saveManuscriptVersionE err hist genId now content note = .ok h)
      ∧ (err ≠ none → saveManuscriptVersionE err hist genId now content note = .ok hist)
      ∧ (∃ l, getManuscriptHistoryE err hist = .ok l)
      ∧ (err ≠ none → getManuscriptHistoryE err hist = .ok []
            ∧ getManuscriptHistoryE err hist
                = getManuscriptHistoryE none [])
      ∧ (∃ h, saveEntityVersionE serE err hist genId now dataE note = .ok h)
      ∧ (err ≠ none → saveEntityVersionE serE err hist genId now dataE note = .ok hist)
      ∧ (∃ l, getEntityHistoryE err hist = .ok l)
      ∧ (err ≠ none → getEntityHistoryE err hist = .ok []
            ∧ getEntityHistoryE err hist = getEntityHistoryE none [])
      ∧ (∃ h, saveProjectMetadataVersionE serM err hist genId now dataM note = .ok h)
      ∧ (err ≠ none →
            saveProjectMetadataVersionE serM err hist genId now dataM note = .ok hist)
      ∧ (∃ l, getProjectMetadataHistoryE err hist = .ok l)
      ∧ (err ≠ none → getProjectMetadataHistoryE err hist = .ok []
            ∧ getProjectMetadataHistoryE err hist
                = getProjectMetadataHistoryE none []) := by
  cases err with
  | some e =>
    have h1 : saveManuscriptVersionE (some e) hist genId now content note = .ok hist := by
      unfold saveManuscriptVersionE
      split <;> rfl
    have h2 : saveEntityVersionE serE (some e) hist genId now dataE note = .ok hist := by
      unfold saveEntityVersionE
      cases dataE <;> rfl
    have h3 : saveProjectMetadataVersionE serM (some e) hist genId now dataM note
        = .ok hist := by
      unfold saveProjectMetadataVersionE
      cases dataM <;> rfl
    exact ⟨⟨hist, h1⟩, fun _ => h1, ⟨[], rfl⟩, fun _ => ⟨rfl, rfl⟩,
      ⟨hist, h2⟩, fun _ => h2, ⟨[], rfl⟩, fun _ => ⟨rfl, rfl⟩,
      ⟨hist, h3⟩, fun _ => h3, ⟨[], rfl⟩, fun _ => ⟨rfl, rfl⟩⟩
  | none =>
    refine ⟨?s1, fun h => absurd rfl h, ⟨getManuscriptHistory hist, rfl⟩,
      fun h => absurd rfl h, ?s2, fun h => absurd rfl h, ⟨getEntityHistory hist, rfl⟩,
      fun h => absurd rfl h, ?s3, fun h => absurd rfl h,
      ⟨getProjectMetadataHistory hist, rfl⟩, fun h => absurd rfl h⟩
    case s1 =>
      unfold saveManuscriptVersionE
      split
      · exact ⟨hist, rfl⟩
      · exact ⟨_, rfl⟩
    case s2 =>
      unfold saveEntityVersionE
      cases dataE
      · exact ⟨hist, rfl⟩
      · exact ⟨_, rfl⟩
    case s3 =>
      unfold saveProjectMetadataVersionE
      cases dataM
      · exact ⟨hist, rfl⟩
      · exact ⟨_, rfl⟩

/-- Witness for claim C10 at a concrete failing backend. -/
theorem claim_C10_witness :
    (∃ h, saveManuscriptVersionE (some "boom") [] "g" "T" "c" none = .ok h)
      ∧ (some "boom" ≠ (none : Option String) →
            saveManuscriptVersionE (some "boom") [] "g" "T" "c" none = .ok [])
      ∧ (∃ l, getManuscriptHistoryE (some "boom") [] = .ok l)
      ∧ (some "boom" ≠ (none : Option String) →
            getManuscriptHistoryE (some "boom") [] = .ok []
              ∧ getManuscriptHistoryE (some "boom") [] = getManuscriptHistoryE none [])
      ∧ (∃ h, saveEntityVersionE (fun _ : Character => "") (some "boom") [] "g" "T"
            (some sampleCharacter) none = .ok h)
      ∧ (some "boom" ≠ (none : Option String) →
            saveEntityVersionE (fun _ : Character => "") (some "boom") [] "g" "T"
              (some sampleCharacter) none = .ok [])
      ∧ (∃ l, getEntityHistoryE (some "boom") [] = .ok l)
      ∧ (some "boom" ≠ (none : Option String) →
            getEntityHistoryE (some "boom") [] = .ok []
              ∧ getEntityHistoryE (some "boom") [] = getEntityHistoryE none [])
      ∧ (∃ h, saveProjectMetadataVersionE (fun _ : ProjectMeta => "") (some "boom") []
            "g" "T" none none = .ok h)
      ∧ (some "boom" ≠ (none : Option String) →
            saveProjectMetadataVersionE (fun _ : ProjectMeta => "") (some "boom") []
              "g" "T" none none = .ok [])
      ∧ (∃ l, getProjectMetadataHistoryE (some "boom") [] = .ok l)
      ∧ (some "boom" ≠ (none : Option String) →
            getProjectMetadataHistoryE (some "boom") [] = .ok []
              ∧ getProjectMetadataHistoryE (some "boom") []
                  = getProjectMetadataHistoryE none []) :=
  claim_C10 (fun _ : Character => "") (fun _ : ProjectMeta => "") (some "boom") []
    "g" "T" "c" none (some sampleCharacter) none

end NovaScribe

